import Mathlib

/-!
Verification development for the `@bhsd/test-util` package: a test harness
for a wikitext parser consisting of a MediaWiki page fetcher (`getPages`,
`reset`), a live corpus runner (`execute`), a regression-test reconciler
(`mochaTest` with its canonicalization helper `split`), and a streaming
test-report formatter (the async generator in `reporter.ts`).

Strings are modelled as `List Char`.  JavaScript numbers that only ever hold
integers are modelled as `Nat`/`Int`; durations (which are compared against
fractional thresholds and rounded) are modelled as `ℚ`.
-/

namespace TestUtil

/-! ## The `split` canonicalizer (src/index.ts, lines 139-140)

`test?.parsed?.split(/(?<=<\/>)(?!$)|(?<!^)(?=<\w)/u)`.

Both alternatives of the regex are zero-width, so `String.prototype.split`
cuts the string at every position `p` with `0 < p < length` at which the
regex matches (a match at position 0 is discarded because its end equals the
chunk start, and position `length` is never tried).  The first alternative
matches when the three characters before `p` are `</>` (and `p` is not the
end, which is already implied); the second when the character at `p` is `<`
followed by a word character (`\w` with the `u` flag is `[A-Za-z0-9_]`). -/

/-- `\w` of a JavaScript regex with the `u` flag: ASCII letter, digit or
underscore. -/
def isWordChar (c : Char) : Bool :=
  c.isAlpha || c.isDigit || c == '_'

/-- Does the split regex match at position `p` of `s`, producing a cut there?
Positions `0` and `s.length` never cut (the `(?<!^)`/`(?!$)` guards together
with the semantics of `split` on zero-width matches). -/
def splitPointAt (s : List Char) (p : Nat) : Bool :=
  decide (0 < p) && decide (p < s.length) &&
    (((s.take p).drop (p - 3) == ['<', '/', '>']) ||
      (match s.drop p with
        | c1 :: c2 :: _ => c1 == '<' && isWordChar c2
        | _ => false))

/-- All cut positions of `s`, in increasing order. -/
def splitPoints (s : List Char) : List Nat :=
  (List.range s.length).filter (fun p => splitPointAt s p)

/-- Cut `s` at the given (increasing) positions; `prev` is the start of the
current chunk. -/
def cutsAux (s : List Char) (prev : Nat) : List Nat → List (List Char)
  | [] => [s.drop prev]
  | p :: rest => ((s.take p).drop prev) :: cutsAux s p rest

/-- The tokenization performed by `parsed.split(/(?<=<\/>)(?!$)|(?<!^)(?=<\w)/u)`:
cut after every `</>` (except at the end of the string) and before every
`<` + word-character pair (except at the start of the string). -/
def splitTokens (s : List Char) : List (List Char) :=
  cutsAux s 0 (splitPoints s)

/-- The tokenization as worded by the specification ("split immediately
before a tag-opening `<letter` sequence"): exactly `splitTokens` but with
`Char.isAlpha` (a letter) in place of the word-character class `\w`.
This definition follows the spec text and exists to be compared with
`splitTokens`, which follows the source. -/
def splitPointAtSpecLetter (s : List Char) (p : Nat) : Bool :=
  decide (0 < p) && decide (p < s.length) &&
    (((s.take p).drop (p - 3) == ['<', '/', '>']) ||
      (match s.drop p with
        | c1 :: c2 :: _ => c1 == '<' && c2.isAlpha
        | _ => false))

/-- Spec-worded variant of `splitTokens` (cuts only before `<`+letter). -/
def splitTokensSpecLetter (s : List Char) : List (List Char) :=
  cutsAux s 0 ((List.range s.length).filter (fun p => splitPointAtSpecLetter s p))

/-! ## The regression-test reconciler (src/index.ts, lines 139-185)

`mochaTest` iterates the corpus from the last index to the first.  A case
with a falsy `wikitext` (absent or the empty string) is skipped untouched.
Otherwise the stale `html`/`print`/`render`/`title` fields are deleted, the
parser is run and its output stored in `parsed`, and
`assert.deepStrictEqual(split(test), split(results.find(...)))` compares the
canonicalized fresh output with the canonicalized stored expectation.  On a
non-assertion error the case is spliced out of the corpus; every thrown
error is annotated with `cause.message = "\n" + wikitext` and re-thrown.
The `after` hook serializes the remaining corpus. -/

/-- A corpus entry (`Test` in src/index.ts). -/
structure Test where
  desc : List Char
  title : Option (List Char) := none
  wikitext : Option (List Char) := none
  parsed : Option (List Char) := none
  html : Option (List Char) := none
  print : Option (List Char) := none
  render : Option (List Char) := none
deriving DecidableEq

/-- A stored expectation (`TestResult` in src/index.ts). -/
structure TestResult where
  desc : List Char
  wikitext : Option (List Char) := none
  parsed : Option (List Char) := none
deriving DecidableEq

/-- View a corpus entry as a `TestResult` (the fields `split` reads). -/
def Test.toRes (t : Test) : TestResult :=
  { desc := t.desc, wikitext := t.wikitext, parsed := t.parsed }

/-- The `delete test.html; delete test.print; delete test.render;
delete test.title` statements. -/
def scrub (t : Test) : Test :=
  { t with html := none, print := none, render := none, title := none }

/-- `split(test) = test?.parsed?.split(...)`: `undefined` when the test or
its `parsed` field is absent, otherwise the tokenization of `parsed`. -/
def split (t : Option TestResult) : Option (List (List Char)) :=
  t.bind (fun x => x.parsed.map splitTokens)

/-- What one registered test does when Mocha runs it: skipped (no test was
registered), passed, failed the `deepStrictEqual` assertion (an
`AssertionError` carrying both token sequences), or crashed with a
non-assertion error.  Thrown errors carry the annotation
`cause.message = "\n" + wikitext`. -/
inductive CaseOutcome (ε : Type) where
  | skipped
  | passed
  | mismatch (actual expected : Option (List (List Char))) (cause : List Char)
  | crashed (e : ε) (cause : List Char)
deriving DecidableEq

/-- One corpus entry through the reconciler: the outcome of its registered
test (if any) and the entry as it remains in the corpus afterwards (`none`
when `tests.splice(i, 1)` removed it). -/
def runCase (parse : List Char → Except ε (List Char)) (results : List TestResult)
    (t : Test) : CaseOutcome ε × Option Test :=
  match t.wikitext with
  | none => (CaseOutcome.skipped, some t)
  | some w =>
    if w = [] then (CaseOutcome.skipped, some t)
    else
      match parse w with
      | Except.error e => (CaseOutcome.crashed e ('\n' :: w), none)
      | Except.ok v =>
        let t2 := { scrub t with parsed := some v }
        let actual := split (some t2.toRes)
        let expected := split (results.find? (fun r => r.desc == t.desc))
        if actual = expected then (CaseOutcome.passed, some t2)
        else (CaseOutcome.mismatch actual expected ('\n' :: w), some t2)

/-- The whole reconciler run: the outcomes of all corpus entries (in corpus
order) and the corpus that the `after` hook serializes.  The source iterates
by descending index and splices removed entries in place, which preserves
the relative order of the retained entries. -/
def runAll (parse : List Char → Except ε (List Char)) (results : List TestResult) :
    List Test → List (CaseOutcome ε) × List Test
  | [] => ([], [])
  | t :: rest =>
    let p := runCase parse results t
    let q := runAll parse results rest
    (p.1 :: q.1, p.2.toList ++ q.2)

/-- Is an outcome an expectation-mismatch (`AssertionError`) failure? -/
def isMismatch {ε : Type} : CaseOutcome ε → Bool
  | CaseOutcome.mismatch _ _ _ => true
  | _ => false

/-- A deterministic parser that succeeds on every input (used as a concrete
instance in the theorems below). -/
def parseId : List Char → Except Nat (List Char) := fun w => Except.ok w

/-- A parser that throws on every input (a concrete instance). -/
def parseFail : List Char → Except Nat (List Char) := fun _ => Except.error 0

/-- A concrete executable corpus entry. -/
def tA : Test := { desc := "d".data, wikitext := some ("a".data) }

/-- A second corpus entry with the same description as `tA` but different
wikitext. -/
def tB : Test := { desc := "d".data, wikitext := some ("b".data) }

/-- A concrete corpus entry whose `wikitext` is present but empty, with
stale fields. -/
def tEmptyW : Test :=
  { desc := "d".data, wikitext := some [], html := some ("h".data),
    title := some ("t".data) }

/-! ## The page fetcher (src/index.ts, lines 43-85)

`getPages` builds a query string from fixed parameters, the
site-dependent namespace set and the module-level continuation token `c`
(spread last, so its entries override on key collision), fetches, then
unconditionally stores `response.continue` into `c` and maps the pages:
`content` is `revisions?.[0]?.contentmodel === 'wikitext' && revisions[0].content`,
and pages whose `content` is `false` are filtered out.  `reset` sets `c`
to `undefined`.  The network call itself is external; we model one call of
`getPages` as a function of the current token and the response it receives,
returning the query parameters it sent, the new token and the page list. -/

/-- One element of a page's `revisions` array. -/
structure Revision where
  content : List Char
  contentmodel : List Char
deriving DecidableEq

/-- A raw API page record (`MediaWikiPage`); an absent `revisions` field is
modelled as the empty list. -/
structure MediaWikiPage where
  pageid : Nat
  title : List Char
  ns : Int
  revisions : List Revision := []
deriving DecidableEq

/-- A normalized page (`SimplePage`). -/
structure SimplePage where
  pageid : Nat
  title : List Char
  ns : Int
  content : List Char
deriving DecidableEq

/-- The continuation object: a string-to-string record, as key/value pairs. -/
abbrev ContToken := List (List Char × List Char)

/-- An API response body (`MediaWikiResponse`); `contin` models the
reserved-word field `continue`. -/
structure MediaWikiResponse where
  pages : List MediaWikiPage
  contin : Option ContToken := none

/-- `revisions?.[0]?.contentmodel === 'wikitext' && revisions[0].content`
followed by the `content !== false` filter: `some content` exactly when the
first revision exists and has content model `"wikitext"`. -/
def pageContent (p : MediaWikiPage) : Option (List Char) :=
  match p.revisions with
  | r :: _ => if r.contentmodel = "wikitext".data then some r.content else none
  | [] => none

/-- The `.map(...).filter(...)` pipeline of `getPages` over the response's
page array. -/
def mapPages (pages : List MediaWikiPage) : List SimplePage :=
  pages.filterMap (fun p => (pageContent p).map
    (fun content => { pageid := p.pageid, title := p.title, ns := p.ns, content }))

/-- The fixed query parameters of `qs` (before the `...c` spread), in
source order.  In the JS object spread, later keys override earlier ones. -/
def baseQs (site : Option (List Char)) (grclimit : List Char) : ContToken :=
  [("action".data, "query".data),
   ("format".data, "json".data),
   ("formatversion".data, "2".data),
   ("errorformat".data, "plaintext".data),
   ("generator".data, "recentchanges".data),
   ("grcnamespace".data,
     if site = some ("MediaWiki".data) then "0|10|12|100|102|104|106".data
     else "0|10".data),
   ("grclimit".data, grclimit),
   ("grctype".data, "edit|new".data),
   ("grctoponly".data, "1".data),
   ("prop".data, "revisions".data),
   ("rvprop".data, "contentmodel|content".data)]

/-- `{...fixed, ...c}`: the continuation token's entries are appended last
(overriding on collision). -/
def buildQs (site : Option (List Char)) (grclimit : List Char)
    (c : Option ContToken) : ContToken :=
  baseQs site grclimit ++ c.getD []

/-- One `getPages` call, as a function of the module state `c` and the
response: (query parameters sent, new value of `c`, returned pages).
The new `c` is `response.continue`, whatever `c` held before. -/
def getPages (c : Option ContToken) (site : Option (List Char))
    (grclimit : List Char) (resp : MediaWikiResponse) :
    ContToken × Option ContToken × List SimplePage :=
  (buildQs site grclimit c, resp.contin, mapPages resp.pages)

/-- `reset`: `c = undefined`. -/
def reset (_c : Option ContToken) : Option ContToken := none

/-! ## The live corpus runner (src/index.ts, lines 93-134)

For each site `execute` resets the token and runs `retry` rounds of
`getPages`, parsing every returned page; a parse error is caught, logged
and counted in the site-local `failed`.  Any error escaping the inner
loops (a fetch failure, or the `worst!` access) jumps to the per-site
`catch`, so `failures.set(site, failed)` — which runs only after all
rounds complete — is skipped and that site's count is lost.  After all
sites, if the `failures` map is nonempty, `execute` throws one error whose
message carries the summed total.  We model a site as the list of outcomes
of its successive `getPages` calls, and `execute`'s result as
`some total` (it throws the aggregate error) or `none` (it returns). -/

/-- The outcome of one `getPages` call: pages, or a thrown network error. -/
abbrev FetchOutcome (φ : Type) := Except φ (List SimplePage)

/-- How many of `pages` fail to parse (the `failed++` counter). -/
def countFailed (parse : List Char → Except ε (List Char))
    (pages : List SimplePage) : Nat :=
  (pages.filter (fun p => !(parse p.content).isOk)).length

/-- The site-local `failed` counter as recorded into the `failures` map:
`some n` when every fetch round completed (so `failures.set` was reached),
`none` when a fetch threw (the count is lost in the per-site `catch`). -/
def siteFailures (parse : List Char → Except ε (List Char)) :
    List (FetchOutcome φ) → Option Nat
  | [] => some 0
  | Except.error _ :: _ => none
  | Except.ok pages :: rest =>
    (siteFailures parse rest).map (fun n => countFailed parse pages + n)

/-- A site's entry in the `failures` map (`failures.set` only runs when
`failed` is nonzero). -/
def siteContribution (parse : List Char → Except ε (List Char))
    (fetches : List (FetchOutcome φ)) : Option Nat :=
  (siteFailures parse fetches).bind (fun n => if n = 0 then none else some n)

/-- `execute`, as a function of each site's fetch outcomes: `some total`
when it throws the aggregate `共有 total 个页面解析失败` error, `none` when it
returns normally. -/
def execute (parse : List Char → Except ε (List Char))
    (sites : List (List (FetchOutcome φ))) : Option Nat :=
  let contribs := sites.filterMap (siteContribution parse)
  if contribs.isEmpty then none else some contribs.sum

/-- The pages that are actually handed to `parse` during a site's run: the
pages of every fetch round before the first fetch error. -/
def attemptedPages : List (FetchOutcome φ) → List SimplePage
  | [] => []
  | Except.error _ :: _ => []
  | Except.ok pages :: rest => pages ++ attemptedPages rest

/-- A concrete raw page whose first revision is not wikitext but whose
second is. -/
def pC6 : MediaWikiPage :=
  { pageid := 1, title := "T".data, ns := 0,
    revisions := [{ content := "x".data, contentmodel := "json".data },
                  { content := "y".data, contentmodel := "wikitext".data }] }

/-- A concrete normalized page. -/
def pageC8 : SimplePage :=
  { pageid := 1, title := "T".data, ns := 0, content := "w".data }

/-- A site whose first fetch succeeds and whose second throws. -/
def siteErrC8 : List (FetchOutcome Nat) := [Except.ok [pageC8], Except.error 1]

/-- A site whose single fetch succeeds. -/
def siteOkC8 : List (FetchOutcome Nat) := [Except.ok [pageC8]]

/-! ## The report formatter (src/reporter.ts)

An async generator over the event stream.  Its loop body is pure: it reads
the event, updates the four state variables (`output`, `cur`, `pass`,
`fail`) and yields at most one string.  `test:complete`, `test:start` and
`test:fail` always yield exactly one fragment; `test:summary` yields one
fragment only when `data.file` is falsy (absent or empty), and there is no
`default` case, so an event of any other type yields nothing.  Durations
are JavaScript numbers compared against 75 and 37.5 and rounded with
`Math.round`; we model them as `ℚ`. -/

/-- `` `\x1b[${color}m${str}\x1b[0m` ``. -/
def getColoredStr (color : Nat) (str : List Char) : List Char :=
  "\x1b[".data ++ (Nat.repr color).data ++ "m".data ++ str ++ "\x1b[0m".data

/-- The slow-test threshold `ms = 75`. -/
def ms : ℚ := 75

/-- The red failure glyph `f = getColoredStr(31, '!')`. -/
def f : List Char := getColoredStr 31 "!".data

/-- `slow = getColoredStr(93, '.')`. -/
def slow : List Char := getColoredStr 93 ".".data

/-- `medium = getColoredStr(33, '.')`. -/
def medium : List Char := getColoredStr 33 ".".data

/-- `fast = getColoredStr(90, '.')`. -/
def fast : List Char := getColoredStr 90 ".".data

/-- JavaScript `Math.round` on the (rational-modelled) duration: round half
toward positive infinity. -/
def jsRound (q : ℚ) : ℤ := Rat.floor (q + 1/2)

/-- The glyph chosen for a `test:complete` event. -/
def symbolFor (passed : Bool) (duration : ℚ) : List Char :=
  if !passed then f
  else if duration > ms then slow
  else if duration > ms / 2 then medium
  else fast

/-- The tagged union of events the generator receives.  `other` stands for
an event whose `type` is none of the four handled strings (the `switch` has
no `default` case).  `file` in `summary` is `none` when the field is
absent. -/
inductive TestEvent where
  | complete (nesting : Nat) (passed : Bool) (duration : ℚ)
  | start (nesting : Nat) (name : List Char)
  | fail (nesting : Nat) (name : List Char) (causeStack : List Char)
  | summary (passed failed skipped : Nat) (duration : ℚ) (file : Option (List Char))
  | other

/-- The generator's local variables. -/
structure FmtState where
  output : List Char
  cur : List Char
  pass : Nat
  fail : Nat
deriving DecidableEq

/-- `let output = '', cur = '', pass = 0, fail = 0`. -/
def initFmt : FmtState := { output := [], cur := [], pass := 0, fail := 0 }

/-- One iteration of the generator's loop: the updated state and the list
of fragments yielded for this event (one or none). -/
def stepReporter (st : FmtState) (e : TestEvent) : FmtState × List (List Char) :=
  match e with
  | TestEvent.complete nesting passed duration =>
    if nesting = 0 then (st, [[]])
    else
      ({ st with pass := st.pass + 1 },
       [(if st.pass = 0 then "\n\n  ".data else []) ++ symbolFor passed duration])
  | TestEvent.start nesting name =>
    (if nesting = 0 then { st with cur := name } else st, [[]])
  | TestEvent.fail nesting name causeStack =>
    if nesting > 0 then
      let failN := st.fail + 1
      let indent := List.replicate ((Nat.repr failN).length + 4) ' '
      ({ st with
          fail := failN,
          output := st.output ++ "  ".data ++ (Nat.repr failN).data ++ ") ".data ++
            st.cur ++ "\n".data ++ indent ++ "  ".data ++ name ++ "\n".data ++
            indent ++ causeStack ++ "\n\n".data },
       [[]])
    else (st, [[]])
  | TestEvent.summary passed failed skipped duration file =>
    if file.getD [] = [] then
      let passing := getColoredStr 32 ("\n  ".data ++ (Nat.repr passed).data ++ " passing".data)
      let time := getColoredStr 90 ("(".data ++ (Int.repr (jsRound duration)).data ++ "ms)".data)
      let pending := if skipped ≠ 0 then
          getColoredStr 36 ("\n  ".data ++ (Nat.repr skipped).data ++ " pending".data)
        else []
      let failing := if failed ≠ 0 then
          getColoredStr 31 ("\n  ".data ++ (Nat.repr failed).data ++ " failing".data)
        else []
      (st, [" \n".data ++ passing ++ " ".data ++ time ++ pending ++ failing ++
        "\n\n".data ++ st.output])
    else (st, [])
  | TestEvent.other => (st, [])

/-- The generator over a finite event list: final state and all fragments
yielded, in order. -/
def runFmt (st : FmtState) : List TestEvent → FmtState × List (List Char)
  | [] => (st, [])
  | e :: es =>
    let p := stepReporter st e
    let q := runFmt p.1 es
    (q.1, p.2 ++ q.2)

/-- All fragments the reporter yields for an event list. -/
def runReporter (events : List TestEvent) : List (List Char) :=
  (runFmt initFmt events).2

/-- Does the generator yield a fragment for this event?  True for
`test:complete`, `test:start`, `test:fail` and for `test:summary` with a
falsy `file`; false for `test:summary` with a file marker and for events of
unrecognized type. -/
def emitsFragment : TestEvent → Bool
  | TestEvent.summary _ _ _ _ file => file.getD [] = []
  | TestEvent.other => false
  | _ => true

/-- Events that increment the `pass` counter (and receive a progress
glyph): `test:complete` at positive nesting, passed or not. -/
def isGlyph : TestEvent → Bool
  | TestEvent.complete nesting _ _ => nesting ≠ 0
  | _ => false

/-- The number of glyph-producing events in a stream. -/
def glyphCount (events : List TestEvent) : Nat :=
  (events.filter isGlyph).length

/-- Substring test on character lists (used to state "the fragment
contains ..."). -/
def containsSub (l sub : List Char) : Bool :=
  (List.range (l.length + 1)).any (fun i => (l.drop i).take sub.length == sub)

/-- Suffix test on character lists (used to state "followed by ..."). -/
def endsWith (l suf : List Char) : Bool :=
  l.drop (l.length - suf.length) == suf

/-! ## Helper lemmas about `splitTokens` -/

theorem splitPoints_sorted (s : List Char) : (splitPoints s).Pairwise (· < ·) :=
  List.Pairwise.sublist (List.filter_sublist _) (List.pairwise_lt_range _)

theorem mem_splitPoints {s : List Char} {p : Nat} (h : p ∈ splitPoints s) :
    0 < p ∧ p < s.length := by
  have h' := List.of_mem_filter h
  unfold splitPointAt at h'
  simp only [Bool.and_eq_true, decide_eq_true_eq] at h'
  exact ⟨h'.1.1, h'.1.2⟩

theorem drop_take_append_drop (s : List Char) {prev p : Nat} (h1 : prev ≤ p) :
    (s.take p).drop prev ++ s.drop p = s.drop prev := by
  rw [List.drop_take]
  have h2 : s.drop p = (s.drop prev).drop (p - prev) := by
    rw [List.drop_drop, Nat.add_sub_cancel' h1]
  rw [h2, List.take_append_drop]

theorem cutsAux_flatten (s : List Char) (ps : List Nat) :
    ∀ (prev : Nat), ps.Pairwise (· < ·) → (∀ p ∈ ps, prev ≤ p ∧ p ≤ s.length) →
      (cutsAux s prev ps).flatten = s.drop prev := by
  induction ps with
  | nil => intro prev _ _; simp [cutsAux]
  | cons p rest ih =>
    intro prev hp hb
    rw [List.pairwise_cons] at hp
    have hrest : ∀ q ∈ rest, p ≤ q ∧ q ≤ s.length :=
      fun q hq => ⟨Nat.le_of_lt (hp.1 q hq), (hb q (List.mem_cons_of_mem _ hq)).2⟩
    simp only [cutsAux, List.flatten_cons]
    rw [ih p hp.2 hrest,
      drop_take_append_drop s (hb p (List.mem_cons_self _ _)).1]

theorem cutsAux_not_nil_mem (s : List Char) (ps : List Nat) :
    ∀ (prev : Nat), ps.Pairwise (· < ·) → (∀ p ∈ ps, prev < p ∧ p < s.length) →
      prev < s.length → [] ∉ cutsAux s prev ps := by
  induction ps with
  | nil =>
    intro prev _ _ hlen
    simp only [cutsAux, List.mem_singleton]
    intro h
    have : (s.drop prev).length = 0 := by rw [← h]; rfl
    rw [List.length_drop] at this
    omega
  | cons p rest ih =>
    intro prev hp hb hlen
    rw [List.pairwise_cons] at hp
    have hpp := hb p (List.mem_cons_self _ _)
    simp only [cutsAux, List.mem_cons]
    rintro (h | h)
    · have : ((s.take p).drop prev).length = 0 := by rw [← h]; rfl
      rw [List.length_drop, List.length_take] at this
      omega
    · exact ih p hp.2
        (fun q hq => ⟨hp.1 q hq, (hb q (List.mem_cons_of_mem _ hq)).2⟩)
        hpp.2 h

/-- C1 (amended: the regex class `\w` covers word characters — letters,
digits, underscore — not only letters): `splitTokens` cuts the parsed
string exactly after each `</>` not at the end and before each `<`+word
character not at the start; on `"<a>x</>text<b>y"` it yields
`["<a>x</>", "text", "<b>y"]`, the tokens of any string concatenate back to
the string, and no input — in particular none ending in `</>` — produces an
empty token. -/
theorem C1_split_tokenization :
    splitTokens ("<a>x</>text<b>y".data) =
      ["<a>x</>".data, "text".data, "<b>y".data] ∧
    splitTokens ("x</>".data) = ["x</>".data] ∧
    ∀ s : List Char, s ≠ [] →
      (splitTokens s).flatten = s ∧ [] ∉ splitTokens s := by
  refine ⟨by decide, by decide, fun s hs => ⟨?_, ?_⟩⟩
  · have := cutsAux_flatten s (splitPoints s) 0 (splitPoints_sorted s)
      (fun p hp => ⟨Nat.zero_le _, Nat.le_of_lt (mem_splitPoints hp).2⟩)
    simpa [splitTokens] using this
  · exact cutsAux_not_nil_mem s (splitPoints s) 0 (splitPoints_sorted s)
      (fun p hp => mem_splitPoints hp)
      (List.length_pos.2 hs)

/-- Witness for C1: the nonemptiness clause applied to the concrete input
`"ab</>"`, which ends in `</>`. -/
theorem C1_split_tokenization_witness :
    (splitTokens ("ab</>".data)).flatten = "ab</>".data ∧
      [] ∉ splitTokens ("ab</>".data) :=
  C1_split_tokenization.2.2 ("ab</>".data) (by decide)

/-- Counterexample to C1 as stated: the source splits before `<` followed
by any word character (`\w`), not only before `<`+letter: on `"x<0y"` the
spec-worded letter-only rule produces one token while the code produces
two. -/
theorem C1_counterexample :
    splitTokensSpecLetter ("x<0y".data) = ["x<0y".data] ∧
    splitTokens ("x<0y".data) = ["x".data, "<0y".data] := by
  exact ⟨by decide, by decide⟩

/-! ## Helper lemmas about the reconciler -/

theorem runAll_nil {ε : Type} (parse : List Char → Except ε (List Char))
    (results : List TestResult) : runAll parse results [] = ([], []) := rfl

theorem runAll_cons {ε : Type} (parse : List Char → Except ε (List Char))
    (results : List TestResult) (t : Test) (rest : List Test) :
    runAll parse results (t :: rest) =
      ((runCase parse results t).1 :: (runAll parse results rest).1,
       (runCase parse results t).2.toList ++ (runAll parse results rest).2) := rfl

theorem runAll_append {ε : Type} (parse : List Char → Except ε (List Char))
    (results : List TestResult) (l1 l2 : List Test) :
    runAll parse results (l1 ++ l2) =
      ((runAll parse results l1).1 ++ (runAll parse results l2).1,
       (runAll parse results l1).2 ++ (runAll parse results l2).2) := by
  induction l1 with
  | nil => simp [runAll_nil]
  | cons t rest ih => simp [runAll_cons, ih]

theorem runCase_crash {ε : Type} {parse : List Char → Except ε (List Char)}
    {results : List TestResult} {t : Test} {w : List Char} {e : ε}
    (hw : t.wikitext = some w) (hne : w ≠ []) (hp : parse w = Except.error e) :
    runCase parse results t = (CaseOutcome.crashed e ('\n' :: w), none) := by
  simp [runCase, hw, hne, hp]

theorem runCase_ok {ε : Type} {parse : List Char → Except ε (List Char)}
    {results : List TestResult} {t : Test} {w v : List Char}
    (hw : t.wikitext = some w) (hne : w ≠ []) (hp : parse w = Except.ok v) :
    runCase parse results t =
      (if split (some ({ scrub t with parsed := some v } : Test).toRes) =
          split (results.find? (fun r => r.desc == t.desc))
        then CaseOutcome.passed
        else CaseOutcome.mismatch
          (split (some ({ scrub t with parsed := some v } : Test).toRes))
          (split (results.find? (fun r => r.desc == t.desc))) ('\n' :: w),
       some { scrub t with parsed := some v }) := by
  simp only [runCase, hw, if_neg hne, hp]
  split <;> rfl

/-- C2: an executed case that crashes with a non-assertion error is removed
from the corpus (so it is absent from the serialized file, whose content is
`(runAll ...).2`) and the outcome carries the error annotated with the
offending wikitext; a case whose comparison fails with an assertion error
is retained with `parsed` already set to the freshly computed output. -/
theorem C2_crash_removal {ε : Type} (parse : List Char → Except ε (List Char))
    (results : List TestResult) (t : Test) (w : List Char)
    (hw : t.wikitext = some w) (hne : w ≠ []) :
    (∀ e : ε, parse w = Except.error e →
      runCase parse results t = (CaseOutcome.crashed e ('\n' :: w), none) ∧
      ∀ pre post : List Test,
        (runAll parse results (pre ++ t :: post)).2 =
          (runAll parse results pre).2 ++ (runAll parse results post).2) ∧
    (∀ v : List Char, parse w = Except.ok v →
      split (some ({ scrub t with parsed := some v } : Test).toRes) ≠
        split (results.find? (fun r => r.desc == t.desc)) →
      runCase parse results t =
        (CaseOutcome.mismatch
          (split (some ({ scrub t with parsed := some v } : Test).toRes))
          (split (results.find? (fun r => r.desc == t.desc))) ('\n' :: w),
         some { scrub t with parsed := some v }) ∧
      ({ scrub t with parsed := some v } : Test).parsed = some v ∧
      ∀ pre post : List Test,
        (runAll parse results (pre ++ t :: post)).2 =
          (runAll parse results pre).2 ++
            { scrub t with parsed := some v } :: (runAll parse results post).2) := by
  constructor
  · intro e he
    have hc := @runCase_crash ε parse results t w e hw hne he
    refine ⟨hc, fun pre post => ?_⟩
    rw [runAll_append, runAll_cons, hc]
    simp
  · intro v hv hm
    have hc := @runCase_ok ε parse results t w v hw hne hv
    rw [if_neg hm] at hc
    refine ⟨hc, rfl, fun pre post => ?_⟩
    rw [runAll_append, runAll_cons, hc]
    simp

/-- Witness for C2: a one-entry corpus whose parser always throws produces
an empty persisted corpus and a crash outcome annotated with the wikitext. -/
theorem C2_crash_removal_witness :
    runCase parseFail [] tA = (CaseOutcome.crashed 0 ('\n' :: "a".data), none) ∧
    (runAll parseFail [] ([] ++ tA :: [])).2 =
      (runAll parseFail [] []).2 ++ (runAll parseFail [] []).2 :=
  ⟨((C2_crash_removal parseFail [] tA ("a".data) rfl (by decide)).1 0 rfl).1,
   ((C2_crash_removal parseFail [] tA ("a".data) rfl (by decide)).1 0 rfl).2 [] []⟩

/-- C10: a corpus entry whose `wikitext` is present but empty is treated
exactly like one with no `wikitext` field: no test is registered for it
(outcome `skipped`), none of its fields are modified, and it is persisted
unchanged in its place in the rewritten corpus. -/
theorem C10_empty_wikitext {ε : Type} (parse : List Char → Except ε (List Char))
    (results : List TestResult) (t : Test) (h : t.wikitext = some []) :
    runCase parse results t = (CaseOutcome.skipped, some t) ∧
    (runCase parse results t).1 =
      (runCase parse results { t with wikitext := none }).1 ∧
    ∀ pre post : List Test,
      (runAll parse results (pre ++ t :: post)).2 =
        (runAll parse results pre).2 ++ t :: (runAll parse results post).2 := by
  have h1 : runCase parse results t = (CaseOutcome.skipped, some t) := by
    simp [runCase, h]
  have h2 : runCase parse results { t with wikitext := none } =
      (CaseOutcome.skipped, some { t with wikitext := none }) := by
    simp [runCase]
  refine ⟨h1, by rw [h1, h2], fun pre post => ?_⟩
  rw [runAll_append, runAll_cons, h1]
  simp

/-- Witness for C10: the concrete entry `tEmptyW` (empty wikitext, stale
`html` and `title` fields) is skipped and persisted untouched. -/
theorem C10_empty_wikitext_witness :
    runCase parseId [] tEmptyW = (CaseOutcome.skipped, some tEmptyW) ∧
    (runCase parseId [] tEmptyW).1 =
      (runCase parseId [] { tEmptyW with wikitext := none }).1 ∧
    (runAll parseId [] ([] ++ tEmptyW :: [])).2 =
      (runAll parseId [] []).2 ++ tEmptyW :: (runAll parseId [] []).2 :=
  ⟨(C10_empty_wikitext parseId [] tEmptyW rfl).1,
   (C10_empty_wikitext parseId [] tEmptyW rfl).2.1,
   (C10_empty_wikitext parseId [] tEmptyW rfl).2.2 [] []⟩

theorem runAll_fst {ε : Type} (parse : List Char → Except ε (List Char))
    (results : List TestResult) (l : List Test) :
    (runAll parse results l).1 = l.map (fun t => (runCase parse results t).1) := by
  induction l with
  | nil => rfl
  | cons t rest ih => simp [runAll_cons, ih]

theorem runAll_snd {ε : Type} (parse : List Char → Except ε (List Char))
    (results : List TestResult) (l : List Test) :
    (runAll parse results l).2 =
      l.filterMap (fun t => (runCase parse results t).2) := by
  induction l with
  | nil => rfl
  | cons t rest ih =>
    rw [runAll_cons, List.filterMap_cons]
    cases (runCase parse results t).2 <;> simp [ih]

theorem runCase_retained {ε : Type} {parse : List Char → Except ε (List Char)}
    {results : List TestResult} {t t' : Test}
    (h : (runCase parse results t).2 = some t') :
    (t' = t ∧ (t.wikitext = none ∨ t.wikitext = some [])) ∨
    (∃ w v, t.wikitext = some w ∧ w ≠ [] ∧ parse w = Except.ok v ∧
      t' = { scrub t with parsed := some v }) := by
  rcases hw : t.wikitext with _ | w
  · simp only [runCase, hw, Option.some.injEq] at h
    exact Or.inl ⟨h.symm, Or.inl rfl⟩
  · by_cases hne : w = []
    · subst hne
      simp only [runCase, hw, if_pos, Option.some.injEq] at h
      exact Or.inl ⟨h.symm, Or.inr rfl⟩
    · cases hp : parse w with
      | error e =>
        rw [runCase_crash hw hne hp] at h
        simp at h
      | ok v =>
        rw [runCase_ok hw hne hp] at h
        simp only [Option.some.injEq] at h
        exact Or.inr ⟨w, v, rfl, hne, hp, h.symm⟩

theorem find_nodup_self (l : List TestResult)
    (hnd : (l.map TestResult.desc).Nodup) {r : TestResult} (hr : r ∈ l) :
    l.find? (fun x => x.desc == r.desc) = some r := by
  induction l with
  | nil => cases hr
  | cons a l ih =>
    rw [List.map_cons, List.nodup_cons] at hnd
    rcases List.mem_cons.1 hr with rfl | hr'
    · exact List.find?_cons_of_pos _ (by simp)
    · have hpa : (a.desc == r.desc) = false := by
        rw [beq_eq_false_iff_ne]
        intro hEq
        exact hnd.1 (hEq ▸ List.mem_map_of_mem TestResult.desc hr')
      rw [List.find?_cons, hpa]
      exact ih hnd.2 hr'

/-- Counterexample to C3 as stated: with a deterministic identity parser
and a two-entry corpus sharing one description, the second run — with the
results collection equal to the first run's persisted corpus — still
produces an expectation mismatch, because `results.find` selects the first
entry with that description for both cases. -/
theorem C3_counterexample :
    (((runAll parseId ((runAll parseId [] [tA, tB]).2.map Test.toRes)
        ((runAll parseId [] [tA, tB]).2)).1).any isMismatch) = true := by
  decide

theorem runCase_consistent {ε : Type} (parse : List Char → Except ε (List Char))
    (res2 : List TestResult) (t' : Test) (w v : List Char)
    (hw : t'.wikitext = some w) (hne : w ≠ []) (hp : parse w = Except.ok v)
    (hpv : t'.parsed = some v)
    (hfind : res2.find? (fun r => r.desc == t'.desc) = some t'.toRes) :
    (runCase parse res2 t').1 = CaseOutcome.passed := by
  rw [runCase_ok hw hne hp]
  have heq : split (some ({ scrub t' with parsed := some v } : Test).toRes) =
      split (res2.find? (fun r => r.desc == t'.desc)) := by
    rw [hfind]
    simp [split, Test.toRes, hpv]
  rw [if_pos heq]

/-- C3 (amended: requires the persisted corpus entries to have pairwise
distinct descriptions, the data model's unique-key assumption): if the
parser is a deterministic function and the results collection supplied to
the second run is the corpus persisted by the first run, the second run
produces no expectation mismatch for any case. -/
theorem C3_idempotent {ε : Type} (parse : List Char → Except ε (List Char))
    (results : List TestResult) (corpus : List Test)
    (hnd : (((runAll parse results corpus).2).map Test.desc).Nodup) :
    ∀ o ∈ (runAll parse (((runAll parse results corpus).2).map Test.toRes)
        ((runAll parse results corpus).2)).1, isMismatch o = false := by
  intro o ho
  rw [runAll_fst] at ho
  rcases List.mem_map.1 ho with ⟨t', ht', rfl⟩
  have ht'' : t' ∈ (corpus.filterMap (fun t => (runCase parse results t).2)) := by
    rw [← runAll_snd]; exact ht'
  rcases List.mem_filterMap.1 ht'' with ⟨t, _, hret⟩
  have hnd' : ((((runAll parse results corpus).2).map Test.toRes).map
      TestResult.desc).Nodup := by
    rw [List.map_map]
    exact hnd
  rcases runCase_retained hret with ⟨rfl, hw | hw⟩ | ⟨w, v, hw, hne, hp, rfl⟩
  · simp [runCase, hw, isMismatch]
  · simp [runCase, hw, isMismatch]
  · have hfind :
        (((runAll parse results corpus).2).map Test.toRes).find?
            (fun r => r.desc == ({ scrub t with parsed := some v } : Test).desc) =
          some ({ scrub t with parsed := some v } : Test).toRes :=
      find_nodup_self _ hnd' (List.mem_map_of_mem Test.toRes ht')
    have hpass := runCase_consistent parse
      (((runAll parse results corpus).2).map Test.toRes)
      ({ scrub t with parsed := some v } : Test) w v hw hne hp rfl hfind
    rw [hpass]
    rfl

/-- Witness for C3 (amended): a one-entry corpus with the identity parser;
the second run's single outcome is not a mismatch. -/
theorem C3_idempotent_witness :
    isMismatch (((runAll parseId ((runAll parseId [] [tA]).2.map Test.toRes)
      ((runAll parseId [] [tA]).2)).1).getD 0 CaseOutcome.skipped) = false :=
  C3_idempotent parseId [] [tA] (by decide) _ (by decide)

/-! ## Fetcher theorems -/

/-- Counterexample to C6 as stated: a record with a non-wikitext first
revision and a wikitext second revision has at least one wikitext revision,
yet `getPages` drops it — the source checks only `revisions?.[0]`. -/
theorem C6_counterexample :
    (∃ r ∈ pC6.revisions, r.contentmodel = "wikitext".data) ∧
    mapPages [pC6] = [] := by
  refine ⟨⟨{ content := "y".data, contentmodel := "wikitext".data }, by decide, rfl⟩,
    by decide⟩

/-- C6 (amended: only the FIRST revision is inspected): a raw page record
is included in the output exactly when its first revision exists and has
content model `"wikitext"`, in which case the emitted record carries that
revision's content; every other record is silently dropped (by a total
filter, not an error). -/
theorem C6_wikitext_filter (pages : List MediaWikiPage) (sp : SimplePage) :
    sp ∈ mapPages pages ↔
      ∃ p ∈ pages, ∃ r rs, p.revisions = r :: rs ∧
        r.contentmodel = "wikitext".data ∧
        sp = { pageid := p.pageid, title := p.title, ns := p.ns,
               content := r.content } := by
  rw [mapPages, List.mem_filterMap]
  constructor
  · rintro ⟨p, hp, hf⟩
    rcases ho : pageContent p with _ | c
    · rw [ho] at hf; simp at hf
    · rw [ho] at hf
      simp only [Option.map_some', Option.some.injEq] at hf
      rcases hrv : p.revisions with _ | ⟨r, rs⟩
      · simp only [pageContent, hrv] at ho; cases ho
      · simp only [pageContent, hrv] at ho
        by_cases hm : r.contentmodel = "wikitext".data
        · rw [if_pos hm, Option.some.injEq] at ho
          exact ⟨p, hp, r, rs, hrv, hm, by rw [← hf, ho]⟩
        · rw [if_neg hm] at ho; cases ho
  · rintro ⟨p, hp, r, rs, hrv, hm, rfl⟩
    exact ⟨p, hp, by simp [pageContent, hrv, hm]⟩

/-- C9: one `getPages` call overwrites the module-level continuation token
with the response's continuation value — independently of the token's
previous value, and absent exactly when the response carries none; `reset`
makes the token absent; and the current token's entries are merged (as the
overriding final entries) into the query parameters the call sends.  In
this embedding the token is the only module-level state `getPages`
touches. -/
theorem C9_continuation_token (c c' : Option ContToken)
    (site : Option (List Char)) (grclimit : List Char)
    (resp : MediaWikiResponse) :
    (getPages c site grclimit resp).2.1 = resp.contin ∧
    (getPages c site grclimit resp).2.1 = (getPages c' site grclimit resp).2.1 ∧
    reset c = none ∧
    (getPages c site grclimit resp).1 = baseQs site grclimit ++ c.getD [] ∧
    c.getD [] <:+ (getPages c site grclimit resp).1 := by
  exact ⟨rfl, rfl, rfl, rfl, ⟨baseQs site grclimit, rfl⟩⟩

/-! ## Live corpus runner theorems -/

theorem siteContribution_none {ε φ : Type}
    (parse : List Char → Except ε (List Char)) (fs : List (FetchOutcome φ)) :
    siteContribution parse fs = none ↔
      ∀ n, siteFailures parse fs = some n → n = 0 := by
  rw [siteContribution]
  cases h : siteFailures parse fs with
  | none => simp
  | some n => by_cases hn : n = 0 <;> simp [hn]

theorem contribs_sum {ε φ : Type} (parse : List Char → Except ε (List Char))
    (sites : List (List (FetchOutcome φ))) :
    (sites.filterMap (siteContribution parse)).sum =
      (sites.filterMap (siteFailures parse)).sum := by
  induction sites with
  | nil => rfl
  | cons s rest ih =>
    cases h : siteFailures parse s with
    | none =>
      have hc : siteContribution parse s = none := by simp [siteContribution, h]
      simp [List.filterMap_cons, hc, h, ih]
    | some n =>
      by_cases hn : n = 0
      · have hc : siteContribution parse s = none := by
          simp [siteContribution, h, hn]
        simp [List.filterMap_cons, hc, h, ih, hn]
      · have hc : siteContribution parse s = some n := by
          simp [siteContribution, h, hn]
        simp [List.filterMap_cons, hc, h, ih]

/-- Counterexample to C8 as stated: a site with one parse failure in its
first fetch round and a network error in its second loses its failure
count (the per-site catch skips `failures.set`), so `execute` returns
normally although a site had a parse failure. -/
theorem C8_counterexample :
    0 < countFailed parseFail (attemptedPages siteErrC8) ∧
    execute parseFail [siteErrC8] = none := by
  exact ⟨by decide, by decide⟩

/-- C8 (amended: only failure counts of sites whose fetch rounds all
completed are recorded): `execute` raises its single aggregate error
exactly when some site completed all its fetch rounds with a nonzero parse
failure count, the reported total sums the recorded per-site counts, and a
site whose fetch throws contributes nothing — it neither prevents the
remaining sites from being processed nor by itself makes `execute`
raise. -/
theorem C8_aggregate_error {ε φ : Type}
    (parse : List Char → Except ε (List Char)) :
    (∀ sites : List (List (FetchOutcome φ)),
      (execute parse sites = none ↔
        ∀ fs ∈ sites, ∀ n, siteFailures parse fs = some n → n = 0)) ∧
    (∀ sites : List (List (FetchOutcome φ)), ∀ t,
      execute parse sites = some t →
        t = (sites.filterMap (siteFailures parse)).sum) ∧
    (∀ pre post : List (List (FetchOutcome φ)),
      ∀ fs : List (FetchOutcome φ), siteFailures parse fs = none →
        execute parse (pre ++ fs :: post) = execute parse (pre ++ post)) := by
  refine ⟨fun sites => ?_, fun sites t ht => ?_, fun pre post fs hfs => ?_⟩
  · constructor
    · intro hx fs hfs n hn
      have hemp : sites.filterMap (siteContribution parse) = [] := by
        by_contra hne
        rw [execute, if_neg (by simpa [List.isEmpty_iff] using hne)] at hx
        cases hx
      have := List.filterMap_eq_nil_iff.1 hemp fs hfs
      exact (siteContribution_none parse fs).1 this n hn
    · intro hall
      have hemp : sites.filterMap (siteContribution parse) = [] :=
        List.filterMap_eq_nil_iff.2
          (fun fs hfs => (siteContribution_none parse fs).2 (hall fs hfs))
      rw [execute, if_pos (by simp [hemp])]
  · rw [execute] at ht
    by_cases h : (sites.filterMap (siteContribution parse)).isEmpty
    · rw [if_pos h] at ht; cases ht
    · rw [if_neg h] at ht
      rw [← Option.some.inj ht, contribs_sum]
  · have hc : siteContribution parse fs = none := by simp [siteContribution, hfs]
    simp [execute, List.filterMap_append, List.filterMap_cons, hc]

/-- Witness for C8 (amended): the network-failing site contributes nothing
to the aggregate decision. -/
theorem C8_aggregate_error_witness :
    execute parseFail ([] ++ siteErrC8 :: [siteOkC8]) =
      execute parseFail ([] ++ [siteOkC8]) :=
  (C8_aggregate_error parseFail).2.2 [] [siteOkC8] siteErrC8 (by decide)

/-! ## Reporter helper lemmas -/

theorem stepReporter_length (st : FmtState) (e : TestEvent) :
    ((stepReporter st e).2).length = if emitsFragment e then 1 else 0 := by
  cases e <;> simp only [stepReporter, emitsFragment] <;> split <;> simp_all

theorem stepReporter_pass (st : FmtState) (e : TestEvent) :
    ((stepReporter st e).1).pass = st.pass + (if isGlyph e then 1 else 0) := by
  cases e <;> simp only [stepReporter, isGlyph] <;> split <;> simp_all

theorem runFmt_append (st : FmtState) (l1 l2 : List TestEvent) :
    runFmt st (l1 ++ l2) =
      ((runFmt (runFmt st l1).1 l2).1,
       (runFmt st l1).2 ++ (runFmt (runFmt st l1).1 l2).2) := by
  induction l1 generalizing st with
  | nil => simp [runFmt]
  | cons e es ih => simp [runFmt, ih]

theorem glyphCount_cons (e : TestEvent) (es : List TestEvent) :
    glyphCount (e :: es) = (if isGlyph e then 1 else 0) + glyphCount es := by
  simp only [glyphCount, List.filter_cons]
  split <;> simp [Nat.add_comm]

theorem runFmt_pass (st : FmtState) (es : List TestEvent) :
    ((runFmt st es).1).pass = st.pass + glyphCount es := by
  induction es generalizing st with
  | nil => simp [runFmt, glyphCount]
  | cons e es ih =>
    have h0 : (runFmt st (e :: es)).1 = (runFmt (stepReporter st e).1 es).1 := rfl
    rw [h0, ih, stepReporter_pass, glyphCount_cons]
    omega

theorem runFmt_length (st : FmtState) (es : List TestEvent) :
    ((runFmt st es).2).length = (es.filter emitsFragment).length := by
  induction es generalizing st with
  | nil => rfl
  | cons e es ih =>
    have h0 : (runFmt st (e :: es)).2 =
        (stepReporter st e).2 ++ (runFmt (stepReporter st e).1 es).2 := rfl
    rw [h0, List.length_append, stepReporter_length, ih, List.filter_cons]
    by_cases h : emitsFragment e <;> simp [h, Nat.add_comm]

/-! ## Reporter theorems -/

/-- Counterexample to C4 as stated: a `test:summary` event carrying a file
marker, and an event of unrecognized type, each produce no fragment at all
(the `switch` has no `default` case and the summary branch only yields when
`file` is falsy), so the output length differs from the number of consumed
events. -/
theorem C4_counterexample :
    (runReporter [TestEvent.summary 1 0 0 5 (some ("a.js".data))]).length ≠
      [TestEvent.summary 1 0 0 5 (some ("a.js".data))].length ∧
    (runReporter [TestEvent.other]).length ≠ [TestEvent.other].length := by
  exact ⟨by decide, by decide⟩

/-- C4 (amended): the formatter yields exactly one fragment per consumed
event of type `test:start`, `test:complete`, `test:fail`, or `test:summary`
without a file marker; `test:summary` events with a file marker and events
of unrecognized type yield none. -/
theorem C4_fragment_count (events : List TestEvent) :
    (runReporter events).length = (events.filter emitsFragment).length ∧
    ∀ (st : FmtState) (e : TestEvent),
      ((stepReporter st e).2).length = if emitsFragment e then 1 else 0 :=
  ⟨runFmt_length initFmt events, fun st e => stepReporter_length st e⟩

/-- Counterexample to C5 as stated: when the failing `test:complete` at
nesting 1 is the first glyph-producing event of the run, its fragment is
the blank-line + indent prefix followed by the red `!`, not the bare
glyph — `pass++` counts every nested `test:complete`, passed or failed. -/
theorem C5_counterexample :
    runReporter [TestEvent.complete 1 false 0] =
      ["\n\n  ".data ++ getColoredStr 31 ("!".data)] ∧
    "\n\n  ".data ++ getColoredStr 31 ("!".data) ≠ getColoredStr 31 ("!".data) := by
  exact ⟨by decide, by decide⟩

/-- C5 (amended): a `test:complete` event at positive nesting emits the
glyph chosen by `symbolFor` — the red `!` when failed — preceded by the
blank-line + indent prefix exactly when it is the first `test:complete` at
positive nesting of the whole run (passed or failed), and the bare glyph
otherwise. -/
theorem C5_failure_glyph (events : List TestEvent) (n : Nat) (b : Bool) (d : ℚ)
    (hn : n ≠ 0) :
    runReporter (events ++ [TestEvent.complete n b d]) =
      runReporter events ++
        [(if glyphCount events = 0 then "\n\n  ".data else []) ++ symbolFor b d] ∧
    symbolFor false d = getColoredStr 31 ("!".data) := by
  constructor
  · simp only [runReporter]
    rw [runFmt_append]
    show (runFmt initFmt events).2 ++
        (runFmt (runFmt initFmt events).1 [TestEvent.complete n b d]).2 = _
    have h1 : (runFmt (runFmt initFmt events).1 [TestEvent.complete n b d]).2 =
        (stepReporter (runFmt initFmt events).1 (TestEvent.complete n b d)).2 := by
      simp [runFmt]
    rw [h1]
    have h2 : (stepReporter (runFmt initFmt events).1
        (TestEvent.complete n b d)).2 =
        [(if glyphCount events = 0 then "\n\n  ".data else []) ++
          symbolFor b d] := by
      simp only [stepReporter, if_neg hn]
      rw [runFmt_pass]
      simp [initFmt]
    rw [h2]
  · rfl

/-- Witness for C5 (amended): a failing first `test:complete` at nesting 1
gets the prefixed red `!`. -/
theorem C5_failure_glyph_witness :
    runReporter ([] ++ [TestEvent.complete 1 false 0]) =
      runReporter [] ++
        [(if glyphCount [] = 0 then "\n\n  ".data else []) ++ symbolFor false 0] ∧
    symbolFor false 0 = getColoredStr 31 ("!".data) :=
  C5_failure_glyph [] 1 false 0 (by decide)

theorem containsSub_intro (a sub b : List Char) :
    containsSub (a ++ (sub ++ b)) sub = true := by
  rw [containsSub, List.any_eq_true]
  refine ⟨a.length, List.mem_range.2 ?_, ?_⟩
  · rw [List.length_append, List.length_append]; omega
  · rw [List.drop_left, List.take_left' rfl]
    exact beq_self_eq_true _

theorem containsSub_prepend (x l sub : List Char)
    (h : containsSub l sub = true) : containsSub (x ++ l) sub = true := by
  rw [containsSub, List.any_eq_true] at h
  rcases h with ⟨i, hi, hp⟩
  rw [containsSub, List.any_eq_true]
  refine ⟨x.length + i, List.mem_range.2 ?_, ?_⟩
  · rw [List.length_append]
    have := List.mem_range.1 hi
    omega
  · rw [← List.drop_drop, List.drop_left]
    exact hp

theorem containsSub_pref2 (s1 s2 y : List Char) :
    containsSub (s1 ++ (s2 ++ y)) (s1 ++ s2) = true := by
  have h := containsSub_intro [] (s1 ++ s2) y
  simpa [List.append_assoc] using h

theorem containsSub_pref3 (s1 s2 s3 y : List Char) :
    containsSub (s1 ++ (s2 ++ (s3 ++ y))) (s1 ++ (s2 ++ s3)) = true := by
  have h := containsSub_intro [] (s1 ++ (s2 ++ s3)) y
  simpa [List.append_assoc] using h

theorem endsWith_intro (a suf : List Char) : endsWith (a ++ suf) suf = true := by
  rw [endsWith, List.length_append, Nat.add_sub_cancel, List.drop_left]
  exact beq_self_eq_true _

theorem endsWith_self (l : List Char) : endsWith l l = true := by
  have h := endsWith_intro [] l
  simpa using h

theorem endsWith_prepend (x l suf : List Char)
    (h : endsWith l suf = true) : endsWith (x ++ l) suf = true := by
  rw [endsWith, beq_iff_eq] at h
  have hl : l = l.take (l.length - suf.length) ++ suf := by
    conv_lhs => rw [← List.take_append_drop (l.length - suf.length) l]
    rw [h]
  rw [hl, ← List.append_assoc]
  exact endsWith_intro _ _

theorem jsRound_127_10 : jsRound (127/10) = 13 := by
  norm_num [jsRound, Rat.floor_def']

/-- The single fragment a `test:summary` event without file marker
produces. -/
theorem summary_fragment (st : FmtState) (p fl sk : Nat) (d : ℚ) :
    (stepReporter st (TestEvent.summary p fl sk d none)).2 =
      [" \n".data ++
        getColoredStr 32 ("\n  ".data ++ (Nat.repr p).data ++ " passing".data) ++
        " ".data ++
        getColoredStr 90 ("(".data ++ (Int.repr (jsRound d)).data ++ "ms)".data) ++
        (if sk ≠ 0 then
          getColoredStr 36 ("\n  ".data ++ (Nat.repr sk).data ++ " pending".data)
         else []) ++
        (if fl ≠ 0 then
          getColoredStr 31 ("\n  ".data ++ (Nat.repr fl).data ++ " failing".data)
         else []) ++
        "\n\n".data ++ st.output] := rfl

/-- C7: the final-aggregate summary fragment contains the pass count as
"n passing", the duration rounded to whole milliseconds as "(nms)", a
pending segment exactly when the skipped count is nonzero, a failing
segment exactly when the failed count is nonzero, and ends with the
accumulated failure-detail block; for counts {passed:3, failed:0,
skipped:1} and duration 12.7 it contains "3 passing", "(13ms)",
"1 pending" and no "failing" segment. -/
theorem C7_summary_format :
    (∀ st : FmtState, st.output = [] →
      ∀ frag ∈ (stepReporter st (TestEvent.summary 3 0 1 (127/10) none)).2,
        containsSub frag ("3 passing".data) = true ∧
        containsSub frag ("(13ms)".data) = true ∧
        containsSub frag ("1 pending".data) = true ∧
        containsSub frag ("failing".data) = false) ∧
    (∀ st : FmtState, ∀ p fl sk : Nat, ∀ d : ℚ,
      ∀ frag ∈ (stepReporter st (TestEvent.summary p fl sk d none)).2,
        containsSub frag ((Nat.repr p).data ++ " passing".data) = true ∧
        containsSub frag
          ("(".data ++ ((Int.repr (jsRound d)).data ++ "ms)".data)) = true ∧
        (sk ≠ 0 → containsSub frag
          ((Nat.repr sk).data ++ " pending".data) = true) ∧
        (fl ≠ 0 → containsSub frag
          ((Nat.repr fl).data ++ " failing".data) = true) ∧
        endsWith frag ("\n\n".data ++ st.output) = true) := by
  constructor
  · intro st hout frag hf
    rw [summary_fragment] at hf
    rcases List.mem_singleton.1 hf with rfl
    rw [hout, jsRound_127_10]
    exact ⟨by decide, by decide, by decide, by decide⟩
  · intro st p fl sk d frag hf
    rw [summary_fragment] at hf
    rcases List.mem_singleton.1 hf with rfl
    refine ⟨?_, ?_, fun hsk => ?_, fun hfl => ?_, ?_⟩
    · simp only [getColoredStr, List.append_assoc]
      repeat
        first
        | exact containsSub_pref2 _ _ _
        | apply containsSub_prepend
    · simp only [getColoredStr, List.append_assoc]
      repeat
        first
        | exact containsSub_pref3 _ _ _ _
        | apply containsSub_prepend
    · simp only [getColoredStr, List.append_assoc, if_pos hsk]
      repeat
        first
        | exact containsSub_pref2 _ _ _
        | apply containsSub_prepend
    · simp only [getColoredStr, List.append_assoc, if_pos hfl]
      repeat
        first
        | exact containsSub_pref2 _ _ _
        | apply containsSub_prepend
    · simp only [getColoredStr, List.append_assoc]
      repeat
        first
        | exact endsWith_self _
        | apply endsWith_prepend

/-- Witness for C7: the concrete summary event applied to the initial
state. -/
theorem C7_summary_format_witness :
    containsSub
      (((stepReporter initFmt (TestEvent.summary 3 0 1 (127/10) none)).2).headI)
      ("3 passing".data) = true :=
  (C7_summary_format.1 initFmt rfl _ (by simp [summary_fragment])).1

end TestUtil
